import Mathlib

/-!
Shallow embedding of the ProxyLab proxy (src/cache.c, src/proxy.c) in Lean 4.

Byte strings (URL keys, response bodies) are modelled as `List Nat`.
C `int` sizes, stamps and counters are modelled as `Nat`: in every state the
claims range over, their values stay far below 2^31, so no wrap-around is
modelled.  Heap allocation outcomes inside `add_to_cache` are made explicit
through an `AllocOutcome` parameter, since the C code branches on `malloc`
returning NULL.  The pthread mutex is not modelled: every cache operation is
embedded as one atomic state transformation, which is what the lock makes the
C operations behave like.
-/

/-- The definition `MAX_CACHE_SIZE` from cache.c: `1024 * 1024`. -/
def MAX_CACHE_SIZE : Nat := 1024 * 1024

/-- The definition `MAX_OBJECT_SIZE` from cache.c: `100 * 1024`. -/
def MAX_OBJECT_SIZE : Nat := 100 * 1024

/-- The definition `INT_MAX`, the initial value of `minStamp` in `cache_eviction`. -/
def INT_MAX : Nat := 2147483647

/-- The definition `web_object_t` from cache.c: key, body, size, LRU stamp, reference count.
The `next` pointer of the C struct is represented by list structure. -/
structure WebObject where
  urlKey : List Nat
  object : List Nat
  objSize : Nat
  tStamp : Nat
  referenceCnt : Nat
deriving DecidableEq

instance : Inhabited WebObject :=
  ⟨{ urlKey := [], object := [], objSize := 0, tStamp := 0, referenceCnt := 0 }⟩

/-- The definition `web_cache_t` from cache.c: the singly linked list (`start`), the current
byte total (`size`) and the LRU clock (`LRU`). -/
structure WebCache where
  start : List WebObject
  size : Nat
  LRU : Nat
deriving DecidableEq

/-- The key comparison of `get_obj_with_key` (cache.c:87-88):
`strlen(key) == strlen(currObj->urlKey) && strncmp(currObj->urlKey, key, strlen(key)) == 0`. -/
def keyEq (key cand : List Nat) : Bool :=
  key.length == cand.length && cand.take key.length == key.take key.length

/-- The definition `get_obj_with_key` (cache.c:84-94): walk the list, return the first entry
whose key matches. -/
def get_obj_with_key (objs : List WebObject) (key : List Nat) : Option WebObject :=
  match objs with
  | [] => none
  | o :: rest => if keyEq key o.urlKey then some o else get_obj_with_key rest key

/-- The victim scan of `cache_eviction` (cache.c:113-124): walk the list with a
running `minStamp` (initially `INT_MAX`) and remember the index of the last
entry that strictly lowered it; `i` is the index of the head of `objs` in the
full list, `best` the index remembered so far (`toEvict[0]`). -/
def scanMin : List WebObject → Nat → Nat → Nat → Nat
  | [], _, _, best => best
  | o :: rest, i, minStamp, best =>
    if o.tStamp < minStamp then scanMin rest (i + 1) o.tStamp i
    else scanMin rest (i + 1) minStamp best

/-- One iteration of the `cache_eviction` loop body plus the loop test, with
explicit fuel.  Each iteration removes the scanned victim from the list and
subtracts its size (cache.c:107-142).  The C loop terminates because every
iteration removes one list node, so fuel `= list length` is exact; on an empty
list with the loop condition still true the C code reads uninitialized memory
(`toEvict[0]`), which is unreachable from states satisfying the size
invariant — the model returns the cache unchanged there. -/
def cache_eviction_go : Nat → Nat → WebCache → WebCache
  | 0, _, c => c
  | fuel + 1, size, c =>
    if c.size + size > MAX_CACHE_SIZE then
      if c.start.isEmpty then c
      else
        let i := scanMin c.start 0 INT_MAX 0
        let v := (c.start.get? i).getD default
        cache_eviction_go fuel size
          { c with start := c.start.eraseIdx i, size := c.size - v.objSize }
    else c

/-- The definition `cache_eviction` (cache.c:104-143). -/
def cache_eviction (size : Nat) (c : WebCache) : WebCache :=
  cache_eviction_go c.start.length size c

/-- The definition `insert_into_cache` (cache.c:154-169): empty list inserts directly with no
eviction check; otherwise evict when `size + objSize >= MAX_CACHE_SIZE`, then
push the new object at the head.  It does not touch `web_cache->size`. -/
def insert_into_cache (webObj : WebObject) (c : WebCache) : WebCache :=
  match c.start with
  | [] => { c with start := [webObj] }
  | _ :: _ =>
    let c' := if c.size + webObj.objSize ≥ MAX_CACHE_SIZE then
        cache_eviction webObj.objSize c
      else c
    { c' with start := webObj :: c'.start }

/-- The three `malloc`/`strcpy` outcomes `add_to_cache` branches on
(cache.c:195-221): all succeed, the `web_object_t` allocation fails, the body
copy fails, or the key copy fails. -/
inductive AllocOutcome
  | ok
  | objFail
  | destFail
  | keyFail
deriving DecidableEq

/-- The definition `add_to_cache` (cache.c:186-233).  Returns the C function's `bool` result
together with the new cache state.  Note the code returns `false` on the
duplicate-key path AND on the successful-insertion path, and `true` on each
allocation-failure path.  On success the new entry copies `size` bytes of
`cacheBuf`, is stamped with the CURRENT clock `web_cache->LRU` (no increment),
gets `referenceCnt = 1`, is inserted via `insert_into_cache`, and `size` is
added to `web_cache->size`. -/
def add_to_cache (alloc : AllocOutcome) (cache_key : List Nat) (cacheBuf : List Nat)
    (size : Nat) (c : WebCache) : Bool × WebCache :=
  if (get_obj_with_key c.start cache_key).isSome then (false, c)
  else
    match alloc with
    | .objFail => (true, c)
    | .destFail => (true, c)
    | .keyFail => (true, c)
    | .ok =>
      let webObj : WebObject :=
        { urlKey := cache_key, object := cacheBuf.take size, objSize := size,
          tStamp := c.LRU, referenceCnt := 1 }
      let c' := insert_into_cache webObj c
      (false, { c' with size := c'.size + size })

/-- Replace the first entry whose key matches `key` by its image under `f`,
leaving everything else unchanged.  This is how the in-place field updates of
`serve_cache` act on the list model. -/
def updateFirst (objs : List WebObject) (key : List Nat) (f : WebObject → WebObject) :
    List WebObject :=
  match objs with
  | [] => []
  | o :: rest => if keyEq key o.urlKey then f o :: rest else o :: updateFirst rest key f

/-- The definition `serve_cache` (cache.c:249-273).  Always increments `web_cache->LRU`; on a
hit it sets the entry's `tStamp` to the new clock and increments its
`referenceCnt`, writes `objSize` bytes of the entry's body to the client, then
decrements the `referenceCnt` again.  Returns (hit, bytes written to fd, new
cache state). -/
def serve_cache (cache_key : List Nat) (c : WebCache) : Bool × List Nat × WebCache :=
  let lru := c.LRU + 1
  let c1 : WebCache := { c with LRU := lru }
  match get_obj_with_key c1.start cache_key with
  | some o =>
    let st1 := updateFirst c1.start cache_key
      (fun x => { x with tStamp := lru, referenceCnt := x.referenceCnt + 1 })
    let st2 := updateFirst st1 cache_key
      (fun x => { x with referenceCnt := x.referenceCnt - 1 })
    (true, o.object.take o.objSize, { c1 with start := st2 })
  | none => (false, [], c1)

/-- The empty cache produced by `init_web_cache` (cache.c:277-288). -/
def initCache : WebCache := { start := [], size := 0, LRU := 0 }

/-- An externally observable cache operation: an admission attempt
(`add_to_cache`) or a lookup (`serve_cache`). -/
inductive CacheOp
  | add (alloc : AllocOutcome) (key : List Nat) (buf : List Nat) (size : Nat)
  | lookup (key : List Nat)

/-- Run one operation, keeping only the cache state. -/
def runOp (op : CacheOp) (c : WebCache) : WebCache :=
  match op with
  | .add a k b s => (add_to_cache a k b s c).2
  | .lookup k => (serve_cache k c).2.2

/-- Run a sequence of operations from a starting state. -/
def runOps (ops : List CacheOp) (c : WebCache) : WebCache :=
  ops.foldl (fun c op => runOp op c) c

/-- Sum of the `objSize` fields of a list of entries. -/
def sumSizes : List WebObject → Nat
  | [] => 0
  | o :: rest => o.objSize + sumSizes rest

/-- The size bound the claims put on admissions. -/
def opOK : CacheOp → Prop
  | .add _ _ _ s => 0 < s ∧ s ≤ MAX_OBJECT_SIZE
  | .lookup _ => True

instance : DecidablePred opOK := by
  intro op
  cases op <;> simp [opOK] <;> infer_instance

/-- The definition `stampAt l j`: the `tStamp` of the entry at index `j` (default entry out of
range), used to state properties of the eviction victim scan. -/
def stampAt (l : List WebObject) (j : Nat) : Nat :=
  ((l.get? j).getD default).tStamp

/-- The admission sequence of claim C3 instantiated concretely: 11 admissions
of size `102400 = MAX_OBJECT_SIZE` under distinct keys `[1]..[11]`, all
allocations succeeding, with no interleaved lookups.
`11 * 102400 = 1126400 > MAX_CACHE_SIZE`. -/
def ops11 : List CacheOp :=
  (List.range 11).map (fun i => CacheOp.add AllocOutcome.ok [i + 1] [7] 102400)

/-! ## Model of the per-connection pipeline (src/proxy.c)

The HTTP parser (`http_parser.h`) and the csapp buffered I/O layer are
external collaborators that are not under src/; their observable outcomes are
modelled from the spec (section 6) as explicit input data: what the parser
answered for each line and field retrieval, and which byte chunks each
`rio_readnb` call returned. -/

/-- The definition `MAXBUF` from csapp.h (8192), the fixed byte count `threadRoutine` writes
to the origin (proxy.c:299). -/
def MAXBUF : Nat := 8192

/-- Modelled from the spec: the four `parser_state` answers of the external
HTTP parser that proxy.c distinguishes. -/
inductive ParseState
  | REQUEST
  | HEADER
  | ERROR
  | OTHER
deriving DecidableEq

/-- Modelled from the spec: the collaborator outcomes `read_requestline`
(proxy.c:137-172) branches on — whether `rio_readlineb` returned a line,
what `parser_parse_line` answered, whether `sscanf` matched three fields and
which `method`/`uri`/`version` it extracted, and what `parser_retrieve PATH`
returned. -/
structure RequestLineInput where
  readOk : Bool
  parsed : ParseState
  scanOk : Bool
  method : String
  uri : String
  version : Char
  pathRes : Option String
deriving DecidableEq

/-- Modelled from the spec: one non-blank header line as read_request
(proxy.c:194-239) sees it — the raw line, the parser's state answer and the
header name `parser_retrieve_next_header` exposes. -/
structure HeaderLineInput where
  raw : String
  parsed : ParseState
  hdrName : Option String
deriving DecidableEq

/-- Modelled from the spec: everything request reading consumes from the
client connection and the parser: the request line outcome, the header lines
before the blank line, whether the blank line arrived at all, whether a
`Host` header was present, and what `parser_retrieve HOST`/`PORT` answer. -/
structure RequestInput where
  line : RequestLineInput
  hdrs : List HeaderLineInput
  terminated : Bool
  hostHeaderPresent : Bool
  hostRes : Option String
  portRes : Option String
deriving DecidableEq

/-- The definition `header_user_agent` (proxy.c:61-63). -/
def header_user_agent : String :=
  "Mozilla/5.0 (X11; Linux x86_64; rv:3.10.0) Gecko/20210731 Firefox/63.0.1"

/-- The three `clienterror` responses proxy.c can write to the client. -/
inductive ErrResp
  | e400
  | e501
  | e500
deriving DecidableEq

/-- The definition `read_requestline` (proxy.c:137-172): returns the rewritten request line
(`<method> <path> HTTP/1.0\r\n`, only reached for GET) or `none` for the C
return value `-1`, together with the error responses written to the client on
the way (a `501 Not Implemented` exactly on the non-GET branch). -/
def read_requestline (r : RequestLineInput) : Option String × List ErrResp :=
  if !r.readOk then (none, [])
  else if r.parsed != ParseState.REQUEST then (none, [])
  else if !r.scanOk || (r.version != '0' && r.version != '1') then (none, [])
  else if r.method != "GET" then (none, [ErrResp.e501])
  else
    match r.pathRes with
    | none => (none, [])
    | some p => (some (r.method ++ " " ++ p ++ " HTTP/1.0\r\n"), [])

/-- The end-of-headers block of `read_request` (proxy.c:200-220): synthesise
`Host` from the parsed URL when the inbound request had no Host header
(failing if the parser cannot supply host or port), then append the fixed
`User-Agent`, `Connection`, `Proxy-Connection` headers and the final CRLF. -/
def finishHeaders (inp : RequestInput) (fBuf : String) : Option String :=
  let tail := "User-Agent: " ++ header_user_agent ++ "\r\n" ++
    "Connection: close\r\n" ++ "Proxy-Connection: close\r\n" ++ "\r\n"
  if inp.hostHeaderPresent then some (fBuf ++ tail)
  else
    match inp.hostRes, inp.portRes with
    | some h, some p => some (fBuf ++ "Host: " ++ h ++ ":" ++ p ++ "\r\n" ++ tail)
    | _, _ => none

/-- The header loop of `read_request` (proxy.c:194-240): stop with an error on
a parser `ERROR` or a second `REQUEST` line, forward `HEADER` lines verbatim
except `Proxy-Connection`, `Connection` and `User-Agent`, and at the end of
input apply `finishHeaders` if the blank line was seen. -/
def processHeaders (inp : RequestInput) : List HeaderLineInput → String → Option String
  | [], fBuf => if inp.terminated then finishHeaders inp fBuf else none
  | h :: rest, fBuf =>
    if h.parsed == ParseState.ERROR || h.parsed == ParseState.REQUEST then none
    else if h.parsed == ParseState.HEADER then
      match h.hdrName with
      | some name =>
        if name != "Proxy-Connection" && name != "Connection" && name != "User-Agent" then
          processHeaders inp rest (fBuf ++ h.raw)
        else processHeaders inp rest fBuf
      | none => processHeaders inp rest fBuf
    else processHeaders inp rest fBuf

/-- The definition `read_request` (proxy.c:187-241): the C function returns `true` on error;
here `none` stands for that, `some fBuf` for the completed rewritten request.
The second component is the list of error responses already written to the
client during request reading. -/
def read_request (inp : RequestInput) : Option String × List ErrResp :=
  match read_requestline inp.line with
  | (none, es) => (none, es)
  | (some fB, es) => (processHeaders inp inp.hdrs fB, es)

/-- The mutable state of the response relay loop (proxy.c:307-323):
`cacheBuf` (the single fixed buffer each chunk is read into, overwriting the
previous chunk), `totalBytesR`, `is_cacheable`, `iter`, plus the bytes
forwarded to the client. -/
structure RelayState where
  cacheBuf : List Nat
  totalBytesR : Nat
  is_cacheable : Bool
  iter : Nat
  clientOut : List Nat
deriving DecidableEq

/-- One iteration of the relay loop (proxy.c:313-323) on a chunk returned by
`rio_readnb`: the chunk lands at the start of `cacheBuf` (the rest of the
buffer keeps its old bytes), is forwarded to the client, the total grows, and
cacheability is cleared once the total exceeds `MAX_OBJECT_SIZE`. -/
def relayChunk (st : RelayState) (chunk : List Nat) : RelayState :=
  { cacheBuf := chunk ++ st.cacheBuf.drop chunk.length,
    totalBytesR := st.totalBytesR + chunk.length,
    is_cacheable :=
      if st.totalBytesR + chunk.length > MAX_OBJECT_SIZE then false else st.is_cacheable,
    iter := st.iter + 1,
    clientOut := st.clientOut ++ chunk }

/-- The whole relay loop over the chunk sequence the origin connection
yielded; `bufInit` is the initial (uninitialized in C) content of `cacheBuf`. -/
def relay (bufInit : List Nat) (chunks : List (List Nat)) : RelayState :=
  chunks.foldl relayChunk
    { cacheBuf := bufInit, totalBytesR := 0, is_cacheable := true, iter := 0,
      clientOut := [] }

/-- Modelled from the spec: all collaborator outcomes one `threadRoutine` run
consumes — the request-reading inputs, the URI retrieval used as cache key,
whether `open_clientfd` and the upstream `rio_writen` succeed, the origin's
response chunks, and the initial contents of the stack buffer `cacheBuf`. -/
structure PipelineInput where
  req : RequestInput
  uriRes : Option (List Nat)
  connectOk : Bool
  writeOk : Bool
  alloc : AllocOutcome
  chunks : List (List Nat)
  bufInit : List Nat

/-- Observable outcome of one `threadRoutine` run: error responses written to
the client, whether `open_clientfd` was called, how many bytes the successful
upstream write transferred and what the rewritten request in the buffer was,
the arguments of the `add_to_cache` call if one happened, the body bytes
forwarded to the client, and the cache state afterwards. -/
structure PipelineResult where
  errs : List ErrResp
  originAttempted : Bool
  upstreamWriteLen : Option Nat
  upstreamReq : Option String
  addCalled : Option (List Nat × List Nat × Nat)
  clientBody : List Nat
  cacheAfter : WebCache

/-- The definition `threadRoutine` (proxy.c:243-340): read and rewrite the request (writing
`400 Bad Request` on any failure, after whatever `read_requestline` already
wrote), retrieve port/host/URI (failure: `400`), try the cache, otherwise open
the origin connection, write `MAXBUF` bytes of the request buffer upstream
(failure: `500`), relay the response chunks, and call `add_to_cache` whenever
`is_cacheable` is still set — with whatever `cacheBuf` and `totalBytesR` then
hold. -/
def threadRoutine (inp : PipelineInput) (cache : WebCache) : PipelineResult :=
  match read_request inp.req with
  | (none, es) =>
    { errs := es ++ [ErrResp.e400], originAttempted := false, upstreamWriteLen := none,
      upstreamReq := none, addCalled := none, clientBody := [], cacheAfter := cache }
  | (some fBuf, es) =>
    match inp.req.portRes, inp.req.hostRes, inp.uriRes with
    | some _, some _, some uri =>
      let sc := serve_cache uri cache
      if sc.1 then
        { errs := es, originAttempted := false, upstreamWriteLen := none,
          upstreamReq := none, addCalled := none, clientBody := sc.2.1,
          cacheAfter := sc.2.2 }
      else if !inp.connectOk then
        { errs := es, originAttempted := true, upstreamWriteLen := none,
          upstreamReq := none, addCalled := none, clientBody := [],
          cacheAfter := sc.2.2 }
      else if !inp.writeOk then
        { errs := es ++ [ErrResp.e500], originAttempted := true, upstreamWriteLen := none,
          upstreamReq := some fBuf, addCalled := none, clientBody := [],
          cacheAfter := sc.2.2 }
      else
        let st := relay inp.bufInit inp.chunks
        { errs := es, originAttempted := true, upstreamWriteLen := some MAXBUF,
          upstreamReq := some fBuf,
          addCalled :=
            if st.is_cacheable then some (uri, st.cacheBuf, st.totalBytesR) else none,
          clientBody := st.clientOut,
          cacheAfter :=
            if st.is_cacheable then
              (add_to_cache inp.alloc uri st.cacheBuf st.totalBytesR sc.2.2).2
            else sc.2.2 }
    | _, _, _ =>
      { errs := es ++ [ErrResp.e400], originAttempted := false, upstreamWriteLen := none,
        upstreamReq := none, addCalled := none, clientBody := [], cacheAfter := cache }

/-- A concrete non-GET request: `POST /x HTTP/1.0` with a Host header, an
otherwise fully cooperative environment. -/
def postInput : PipelineInput :=
  { req :=
      { line :=
          { readOk := true, parsed := ParseState.REQUEST, scanOk := true,
            method := "POST", uri := "http://a:80/x", version := '0',
            pathRes := some "/x" },
        hdrs := [], terminated := true, hostHeaderPresent := true,
        hostRes := some "a", portRes := some "80" },
    uriRes := some [104], connectOk := true, writeOk := true,
    alloc := AllocOutcome.ok, chunks := [], bufInit := [] }

/-- A concrete well-formed `GET http://a:80/x` request without a Host header,
parameterised by the origin's response chunks and the initial stack-buffer
contents. -/
def getInput (chunks : List (List Nat)) (bufInit : List Nat) : PipelineInput :=
  { req :=
      { line :=
          { readOk := true, parsed := ParseState.REQUEST, scanOk := true,
            method := "GET", uri := "http://a:80/x", version := '0',
            pathRes := some "/x" },
        hdrs := [], terminated := true, hostHeaderPresent := false,
        hostRes := some "a", portRes := some "80" },
    uriRes := some [104], connectOk := true, writeOk := true,
    alloc := AllocOutcome.ok, chunks := chunks, bufInit := bufInit }

/-- A concrete resident entry used to instantiate theorems. -/
def oneEntry : WebObject :=
  { urlKey := [1], object := [7], objSize := 1, tStamp := 0, referenceCnt := 1 }

/-- A concrete one-entry cache used to instantiate theorems. -/
def oneEntryCache : WebCache := { start := [oneEntry], size := 1, LRU := 0 }

/-- A concrete two-entry list (stamps 5 and 3) used to instantiate the victim
scan characterisation. -/
def twoEntries : List WebObject :=
  [{ urlKey := [1], object := [], objSize := 0, tStamp := 5, referenceCnt := 1 },
   { urlKey := [2], object := [], objSize := 0, tStamp := 3, referenceCnt := 1 }]

set_option maxRecDepth 10000

/-! ## Basic lemmas about the cache model -/

/-- The C key comparison (length check plus `strncmp` over `strlen(key)`
characters) is exact byte-string equality. -/
theorem keyEq_iff (k c : List Nat) : keyEq k c = true ↔ k = c := by
  simp only [keyEq, Bool.and_eq_true, beq_iff_eq]
  constructor
  · rintro ⟨hl, ht⟩
    have h1 : List.take k.length k = k := List.take_length k
    have h2 : List.take k.length c = c := by rw [hl]; exact List.take_length c
    rw [h1, h2] at ht
    exact ht.symm
  · rintro rfl
    exact ⟨rfl, rfl⟩

/-- The index remembered by the victim scan is either the initial `best` or a
position inside the scanned segment. -/
theorem scanMin_cases : ∀ (l : List WebObject) (i m b : Nat),
    scanMin l i m b = b ∨ (i ≤ scanMin l i m b ∧ scanMin l i m b < i + l.length) := by
  intro l
  induction l with
  | nil => intro i m b; left; rfl
  | cons o rest ih =>
    intro i m b
    simp only [scanMin, List.length_cons]
    by_cases h : o.tStamp < m
    · rw [if_pos h]
      rcases ih (i + 1) o.tStamp i with h1 | ⟨h1, h2⟩
      · right; rw [h1]; omega
      · right; omega
    · rw [if_neg h]
      rcases ih (i + 1) m b with h1 | ⟨h1, h2⟩
      · left; exact h1
      · right; omega

/-- On a nonempty list the victim scan started as in `cache_eviction`
(`minStamp = INT_MAX`, `best = 0`) returns a valid index. -/
theorem scanMin_lt_length (l : List WebObject) (h : l ≠ []) :
    scanMin l 0 INT_MAX 0 < l.length := by
  rcases scanMin_cases l 0 INT_MAX 0 with h1 | ⟨_, h2⟩
  · rw [h1]
    exact List.length_pos.mpr h
  · simpa using h2

/-- Removing the entry at a valid index removes exactly its size from the sum. -/
theorem sumSizes_eraseIdx : ∀ (l : List WebObject) (i : Nat), i < l.length →
    sumSizes (l.eraseIdx i) + ((l.get? i).getD default).objSize = sumSizes l := by
  intro l
  induction l with
  | nil => intro i h; simp at h
  | cons o rest ih =>
    intro i h
    cases i with
    | zero => simp [List.eraseIdx, sumSizes, Nat.add_comm]
    | succ j =>
      have hj : j < rest.length := by simpa using h
      have := ih j hj
      simp only [List.eraseIdx, List.get?, sumSizes]
      omega

/-- Erasing a valid index shortens the list by one. -/
theorem length_eraseIdx_lt : ∀ (l : List WebObject) (i : Nat), i < l.length →
    (l.eraseIdx i).length + 1 = l.length := by
  intro l
  induction l with
  | nil => intro i h; simp at h
  | cons o rest ih =>
    intro i h
    cases i with
    | zero => simp [List.eraseIdx]
    | succ j =>
      have hj : j < rest.length := by simpa using h
      have := ih j hj
      simp only [List.eraseIdx, List.length_cons]
      omega

/-- The size-accounting invariant of the cache: `web_cache->size` is the sum of
the resident entry sizes and stays within `MAX_CACHE_SIZE`. -/
def CacheInv (c : WebCache) : Prop :=
  c.size = sumSizes c.start ∧ c.size ≤ MAX_CACHE_SIZE

/-- The eviction loop preserves the size invariant, never touches the clock,
and on exit leaves room for `need` more bytes, provided `need` itself fits in
an empty cache and the fuel covers the list length. -/
theorem cache_eviction_go_inv : ∀ (fuel need : Nat) (c : WebCache), CacheInv c →
    need ≤ MAX_CACHE_SIZE → c.start.length ≤ fuel →
    CacheInv (cache_eviction_go fuel need c) ∧
      (cache_eviction_go fuel need c).size + need ≤ MAX_CACHE_SIZE ∧
      (cache_eviction_go fuel need c).LRU = c.LRU := by
  intro fuel
  induction fuel with
  | zero =>
    intro need c hInv hneed hlen
    have hnil : c.start = [] := List.eq_nil_of_length_eq_zero (Nat.le_zero.mp hlen)
    have hsz : c.size = 0 := by rw [hInv.1, hnil]; rfl
    exact ⟨hInv, by simp [cache_eviction_go]; omega, rfl⟩
  | succ fuel ih =>
    intro need c hInv hneed hlen
    simp only [cache_eviction_go]
    by_cases hcond : c.size + need > MAX_CACHE_SIZE
    · rw [if_pos hcond]
      by_cases hnil : c.start.isEmpty
      · exfalso
        have : c.start = [] := List.isEmpty_iff.mp hnil
        have : c.size = 0 := by rw [hInv.1, this]; rfl
        omega
      · rw [if_neg hnil]
        have hne : c.start ≠ [] := by
          intro h
          exact hnil (by simp [h])
        have hi : scanMin c.start 0 INT_MAX 0 < c.start.length :=
          scanMin_lt_length c.start hne
        have hsum := sumSizes_eraseIdx c.start _ hi
        have hlen2 := length_eraseIdx_lt c.start _ hi
        set i := scanMin c.start 0 INT_MAX 0
        set v := ((c.start.get? i).getD default)
        have hv : v.objSize ≤ c.size := by rw [hInv.1]; omega
        have hInv2 : CacheInv
            { c with start := c.start.eraseIdx i, size := c.size - v.objSize } := by
          constructor
          · show c.size - v.objSize = sumSizes (c.start.eraseIdx i)
            rw [hInv.1]
            omega
          · show c.size - v.objSize ≤ MAX_CACHE_SIZE
            have := hInv.2
            omega
        exact ih need _ hInv2 hneed (by simp only []; omega)
    · rw [if_neg hcond]
      exact ⟨hInv, by omega, rfl⟩

/-- The definition `cache_eviction`, as called with room requirement `need`, preserves the
invariant, preserves the clock, and guarantees `need` bytes of headroom. -/
theorem cache_eviction_inv (need : Nat) (c : WebCache) (hInv : CacheInv c)
    (hneed : need ≤ MAX_CACHE_SIZE) :
    CacheInv (cache_eviction need c) ∧
      (cache_eviction need c).size + need ≤ MAX_CACHE_SIZE ∧
      (cache_eviction need c).LRU = c.LRU :=
  cache_eviction_go_inv c.start.length need c hInv hneed le_rfl

/-- The definition `updateFirst` preserves list length. -/
theorem updateFirst_length : ∀ (l : List WebObject) (key : List Nat)
    (f : WebObject → WebObject), (updateFirst l key f).length = l.length := by
  intro l key f
  induction l with
  | nil => rfl
  | cons o rest ih =>
    simp only [updateFirst]
    by_cases h : keyEq key o.urlKey
    · rw [if_pos h]; rfl
    · rw [if_neg h]; simp [ih]

/-- The definition `updateFirst` with a size-preserving update preserves the size sum. -/
theorem sumSizes_updateFirst : ∀ (l : List WebObject) (key : List Nat)
    (f : WebObject → WebObject), (∀ x, (f x).objSize = x.objSize) →
    sumSizes (updateFirst l key f) = sumSizes l := by
  intro l key f hf
  induction l with
  | nil => rfl
  | cons o rest ih =>
    simp only [updateFirst]
    by_cases h : keyEq key o.urlKey
    · rw [if_pos h]; simp [sumSizes, hf]
    · rw [if_neg h]; simp [sumSizes, ih]

/-- The definition `updateFirst` with a key-preserving update preserves the key list. -/
theorem map_urlKey_updateFirst : ∀ (l : List WebObject) (key : List Nat)
    (f : WebObject → WebObject), (∀ x, (f x).urlKey = x.urlKey) →
    (updateFirst l key f).map (fun o => o.urlKey) = l.map (fun o => o.urlKey) := by
  intro l key f hf
  induction l with
  | nil => rfl
  | cons o rest ih =>
    simp only [updateFirst]
    by_cases h : keyEq key o.urlKey
    · rw [if_pos h]; simp [hf]
    · rw [if_neg h]; simp [ih]

/-- Two successive `updateFirst` on the same key fuse, when the first update
does not change the key. -/
theorem updateFirst_updateFirst : ∀ (l : List WebObject) (key : List Nat)
    (f g : WebObject → WebObject), (∀ x, (f x).urlKey = x.urlKey) →
    updateFirst (updateFirst l key f) key g = updateFirst l key (fun x => g (f x)) := by
  intro l key f g hf
  induction l with
  | nil => rfl
  | cons o rest ih =>
    simp only [updateFirst]
    by_cases h : keyEq key o.urlKey
    · rw [if_pos h]
      simp only [updateFirst]
      rw [if_pos (by rw [hf]; exact h), if_pos h]
    · rw [if_neg h]
      simp only [updateFirst]
      rw [if_neg h, if_neg h, ih]

/-- Pointwise view of `updateFirst`: every position is either untouched or
holds the image of the old entry at a key-matching position. -/
theorem updateFirst_get? : ∀ (l : List WebObject) (key : List Nat)
    (f : WebObject → WebObject) (i : Nat),
    (updateFirst l key f).get? i = l.get? i ∨
      ∃ o, l.get? i = some o ∧ keyEq key o.urlKey = true ∧
        (updateFirst l key f).get? i = some (f o) := by
  intro l key f
  induction l with
  | nil => intro i; left; rfl
  | cons o rest ih =>
    intro i
    simp only [updateFirst]
    by_cases h : keyEq key o.urlKey
    · rw [if_pos h]
      cases i with
      | zero => right; exact ⟨o, rfl, h, rfl⟩
      | succ j => left; rfl
    · rw [if_neg h]
      cases i with
      | zero => left; rfl
      | succ j => exact ih j

/-- The state part of `serve_cache`: the clock always advances by one, and the
entry list is either unchanged (miss) or has the first matching entry
re-stamped with the new clock (hit; the reference count ends where it
started, `+ 1` then `- 1`). -/
theorem serve_cache_state (key : List Nat) (c : WebCache) :
    (serve_cache key c).2.2 =
      { c with
        LRU := c.LRU + 1,
        start :=
          match get_obj_with_key c.start key with
          | some _ => updateFirst c.start key (fun x => { x with tStamp := c.LRU + 1 })
          | none => c.start } := by
  simp only [serve_cache]
  cases hg : get_obj_with_key c.start key with
  | none => rfl
  | some o =>
    simp only []
    congr 1
    rw [updateFirst_updateFirst c.start key
      (fun x => { x with tStamp := c.LRU + 1, referenceCnt := x.referenceCnt + 1 })
      (fun x => { x with referenceCnt := x.referenceCnt - 1 })
      (fun x => rfl)]
    simp

/-- The definition `MAX_OBJECT_SIZE` fits inside `MAX_CACHE_SIZE`. -/
theorem max_object_le_max_cache : MAX_OBJECT_SIZE ≤ MAX_CACHE_SIZE := by decide

/-- The definition `insert_into_cache` under the invariant: afterwards the sum of resident
sizes is the (not yet updated) `size` field plus the new object's size, the
budget still holds once the caller adds the size, and the clock is untouched. -/
theorem insert_into_cache_inv (obj : WebObject) (c : WebCache) (hInv : CacheInv c)
    (hobj : obj.objSize ≤ MAX_OBJECT_SIZE) :
    sumSizes (insert_into_cache obj c).start =
        (insert_into_cache obj c).size + obj.objSize ∧
      (insert_into_cache obj c).size + obj.objSize ≤ MAX_CACHE_SIZE ∧
      (insert_into_cache obj c).LRU = c.LRU := by
  obtain ⟨st, sz, lru⟩ := c
  cases st with
  | nil =>
    obtain ⟨h1, h2⟩ := hInv
    have hsz : sz = 0 := by simpa [sumSizes] using h1
    have hm := max_object_le_max_cache
    simp only [insert_into_cache, sumSizes]
    refine ⟨by omega, by omega, by trivial⟩
  | cons o rest =>
    simp only [insert_into_cache]
    by_cases hev : sz + obj.objSize ≥ MAX_CACHE_SIZE
    · rw [if_pos hev]
      obtain ⟨hI, hroom, hlru⟩ :=
        cache_eviction_inv obj.objSize ⟨o :: rest, sz, lru⟩ hInv
          (le_trans hobj max_object_le_max_cache)
      refine ⟨?_, ?_, ?_⟩
      · show sumSizes (obj :: (cache_eviction obj.objSize ⟨o :: rest, sz, lru⟩).start) =
          (cache_eviction obj.objSize ⟨o :: rest, sz, lru⟩).size + obj.objSize
        have h1 := hI.1
        simp only [sumSizes]
        omega
      · exact hroom
      · exact hlru
    · rw [if_neg hev]
      obtain ⟨h1, h2⟩ := hInv
      refine ⟨?_, ?_, ?_⟩
      · show sumSizes (obj :: o :: rest) = sz + obj.objSize
        simp only [sumSizes] at h1 ⊢
        omega
      · show sz + obj.objSize ≤ MAX_CACHE_SIZE
        omega
      · trivial

/-- The definition `add_to_cache` preserves the size invariant for admissions of at most
`MAX_OBJECT_SIZE` bytes. -/
theorem add_to_cache_inv (a : AllocOutcome) (k b : List Nat) (s : Nat) (c : WebCache)
    (hInv : CacheInv c) (hs : s ≤ MAX_OBJECT_SIZE) :
    CacheInv (add_to_cache a k b s c).2 := by
  simp only [add_to_cache]
  by_cases hdup : (get_obj_with_key c.start k).isSome
  · rw [if_pos hdup]
    exact hInv
  · rw [if_neg hdup]
    cases a with
    | objFail => exact hInv
    | destFail => exact hInv
    | keyFail => exact hInv
    | ok =>
      simp only []
      obtain ⟨hsum, hroom, _⟩ :=
        insert_into_cache_inv
          { urlKey := k, object := b.take s, objSize := s,
            tStamp := c.LRU, referenceCnt := 1 } c hInv hs
      exact ⟨hsum.symm, hroom⟩

/-- A single cache operation preserves the size invariant. -/
theorem runOp_inv (op : CacheOp) (c : WebCache) (hInv : CacheInv c)
    (hop : opOK op) : CacheInv (runOp op c) := by
  cases op with
  | add a k b s => exact add_to_cache_inv a k b s c hInv hop.2
  | lookup k =>
    simp only [runOp]
    rw [serve_cache_state]
    constructor
    · show c.size = sumSizes _
      cases hg : get_obj_with_key c.start k with
      | none => exact hInv.1
      | some o =>
        simp only []
        rw [sumSizes_updateFirst c.start k
          (fun x => { x with tStamp := c.LRU + 1 }) (fun x => rfl)]
        exact hInv.1
    · exact hInv.2

/-- Any operation sequence preserves the size invariant. -/
theorem runOps_inv : ∀ (ops : List CacheOp) (c : WebCache), CacheInv c →
    (∀ op ∈ ops, opOK op) → CacheInv (runOps ops c) := by
  intro ops
  induction ops with
  | nil => intro c hInv _; exact hInv
  | cons op rest ih =>
    intro c hInv hops
    have h1 : opOK op := hops op (List.mem_cons_self op rest)
    have h2 : ∀ o ∈ rest, opOK o := fun o ho => hops o (List.mem_cons_of_mem op ho)
    exact ih (runOp op c) (runOp_inv op c hInv h1) h2

/-- C2: after every sequence of admissions (each with `0 < size ≤
MAX_OBJECT_SIZE`) and lookups starting from the empty cache, `web_cache->size`
equals the sum of the sizes of the resident entries and is at most
`MAX_CACHE_SIZE = 1048576`. -/
theorem cache_budget_invariant (ops : List CacheOp) (hops : ∀ op ∈ ops, opOK op) :
    (runOps ops initCache).size = sumSizes (runOps ops initCache).start ∧
      (runOps ops initCache).size ≤ MAX_CACHE_SIZE ∧ MAX_CACHE_SIZE = 1048576 := by
  have h0 : CacheInv initCache := ⟨rfl, Nat.zero_le _⟩
  obtain ⟨h1, h2⟩ := runOps_inv ops initCache h0 hops
  exact ⟨h1, h2, rfl⟩

/-- Witness for `cache_budget_invariant` on a concrete two-operation run. -/
theorem cache_budget_invariant_witness :
    (runOps [CacheOp.add AllocOutcome.ok [1] [7, 8] 2, CacheOp.lookup [1]]
        initCache).size =
      sumSizes (runOps [CacheOp.add AllocOutcome.ok [1] [7, 8] 2, CacheOp.lookup [1]]
        initCache).start ∧
      (runOps [CacheOp.add AllocOutcome.ok [1] [7, 8] 2, CacheOp.lookup [1]]
        initCache).size ≤ MAX_CACHE_SIZE ∧ MAX_CACHE_SIZE = 1048576 :=
  cache_budget_invariant
    [CacheOp.add AllocOutcome.ok [1] [7, 8] 2, CacheOp.lookup [1]]
    (by decide)

/-! ## Lemmas about the eviction victim scan -/

/-- Each valid index names the stamp of a resident entry. -/
theorem stampAt_mem : ∀ (l : List WebObject) (j : Nat), j < l.length →
    ∃ o ∈ l, stampAt l j = o.tStamp := by
  intro l
  induction l with
  | nil => intro j h; simp at h
  | cons o rest ih =>
    intro j h
    cases j with
    | zero => exact ⟨o, List.mem_cons_self o rest, rfl⟩
    | succ j' =>
      obtain ⟨x, hx, he⟩ := ih j' (by simpa using h)
      exact ⟨x, List.mem_cons_of_mem o hx, he⟩

/-- If no scanned entry beats the running minimum, the scan keeps `best`. -/
theorem scanMin_all_ge : ∀ (l : List WebObject) (i m b : Nat),
    (∀ o ∈ l, m ≤ o.tStamp) → scanMin l i m b = b := by
  intro l
  induction l with
  | nil => intro i m b _; rfl
  | cons o rest ih =>
    intro i m b h
    have ho : m ≤ o.tStamp := h o (List.mem_cons_self o rest)
    simp only [scanMin]
    rw [if_neg (by omega)]
    exact ih (i + 1) m b (fun x hx => h x (List.mem_cons_of_mem o hx))

/-- If some scanned entry beats the running minimum, the scan returns the
first index attaining the minimal stamp: the result is in range, its stamp is
below `m`, no entry has a smaller stamp, and every earlier entry has a
strictly larger stamp. -/
theorem scanMin_min : ∀ (l : List WebObject) (i m b : Nat),
    (∃ o ∈ l, o.tStamp < m) →
    ∃ k, k < l.length ∧ scanMin l i m b = i + k ∧ stampAt l k < m ∧
      (∀ j, j < l.length → stampAt l k ≤ stampAt l j) ∧
      (∀ j, j < k → stampAt l k < stampAt l j) := by
  intro l
  induction l with
  | nil => intro i m b h; simp at h
  | cons o rest ih =>
    intro i m b h
    simp only [scanMin]
    by_cases ho : o.tStamp < m
    · rw [if_pos ho]
      by_cases hrest : ∃ x ∈ rest, x.tStamp < o.tStamp
      · obtain ⟨k, hk, heq, hlt, hmin, hfirst⟩ := ih (i + 1) o.tStamp i hrest
        refine ⟨k + 1, by simpa using Nat.succ_lt_succ hk, by rw [heq]; omega, ?_, ?_, ?_⟩
        · show stampAt rest k < m
          omega
        · intro j hj
          cases j with
          | zero =>
            show stampAt rest k ≤ o.tStamp
            omega
          | succ j' => exact hmin j' (by simpa using hj)
        · intro j hj
          cases j with
          | zero =>
            show stampAt rest k < o.tStamp
            omega
          | succ j' => exact hfirst j' (by omega)
      · push_neg at hrest
        rw [scanMin_all_ge rest (i + 1) o.tStamp i hrest]
        refine ⟨0, by simp, by omega, ho, ?_, ?_⟩
        · intro j hj
          cases j with
          | zero => exact le_refl _
          | succ j' =>
            obtain ⟨x, hx, he⟩ := stampAt_mem rest j' (by simpa using hj)
            show o.tStamp ≤ stampAt rest j'
            rw [he]
            exact hrest x hx
        · intro j hj
          omega
    · rw [if_neg ho]
      have hrest : ∃ x ∈ rest, x.tStamp < m := by
        obtain ⟨x, hx, hxl⟩ := h
        rcases List.mem_cons.mp hx with rfl | hx'
        · omega
        · exact ⟨x, hx', hxl⟩
      obtain ⟨k, hk, heq, hlt, hmin, hfirst⟩ := ih (i + 1) m b hrest
      refine ⟨k + 1, by simpa using Nat.succ_lt_succ hk, by rw [heq]; omega, hlt, ?_, ?_⟩
      · intro j hj
        cases j with
        | zero =>
          show stampAt rest k ≤ o.tStamp
          omega
        | succ j' => exact hmin j' (by simpa using hj)
      · intro j hj
        cases j with
        | zero =>
          show stampAt rest k < o.tStamp
          omega
        | succ j' => exact hfirst j' (by omega)

/-- C3 (amended): every eviction step removes the FIRST-ENCOUNTERED entry
among those with the minimal stamp — the victim index chosen by the scan of
`cache_eviction` is in range, attains the minimum stamp, and strictly beats
every entry before it.  But because `add_to_cache` stamps new entries with
the un-incremented clock, equal-size admissions with no interleaved lookups
all carry the same stamp, the scan always picks the list HEAD (the most
recent admission), and the resident set after `a1..a11` of size
`s = 102400` (`11·s > MAX_CACHE_SIZE`) is the earliest admissions plus the
final one — `{a1..a9, a11}` in insertion order — not the most-recently-stamped
suffix. -/
theorem eviction_victim_amended :
    (∀ l : List WebObject, (∃ o ∈ l, o.tStamp < INT_MAX) →
      scanMin l 0 INT_MAX 0 < l.length ∧
        (∀ j, j < l.length → stampAt l (scanMin l 0 INT_MAX 0) ≤ stampAt l j) ∧
        (∀ j, j < scanMin l 0 INT_MAX 0 → stampAt l (scanMin l 0 INT_MAX 0) < stampAt l j)) ∧
      (runOps ops11 initCache).start.map (fun o => o.urlKey) =
        [[11], [9], [8], [7], [6], [5], [4], [3], [2], [1]] := by
  constructor
  · intro l hl
    obtain ⟨k, hk, heq, _, hmin, hfirst⟩ := scanMin_min l 0 INT_MAX 0 hl
    rw [Nat.zero_add] at heq
    rw [heq]
    exact ⟨hk, hmin, hfirst⟩
  · decide

/-- C3 counterexample: for the 11 equal-size admissions of `ops11`
(`11 · 102400 > MAX_CACHE_SIZE`, sizes `≤ MAX_OBJECT_SIZE`), the
most-recently-stamped suffix would be `{a2..a11}`, but admission 10 is NOT
resident while admission 1 IS. -/
theorem lru_suffix_counterexample :
    MAX_OBJECT_SIZE = 102400 ∧ 11 * 102400 > MAX_CACHE_SIZE ∧
      ¬ [10] ∈ (runOps ops11 initCache).start.map (fun o => o.urlKey) ∧
      [1] ∈ (runOps ops11 initCache).start.map (fun o => o.urlKey) := by decide

/-- Witness for the general part of `eviction_victim_amended`, at the
two-entry list with stamps 5 and 3. -/
theorem eviction_victim_amended_witness :
    scanMin twoEntries 0 INT_MAX 0 < twoEntries.length ∧
      (∀ j, j < twoEntries.length →
        stampAt twoEntries (scanMin twoEntries 0 INT_MAX 0) ≤ stampAt twoEntries j) ∧
      (∀ j, j < scanMin twoEntries 0 INT_MAX 0 →
        stampAt twoEntries (scanMin twoEntries 0 INT_MAX 0) < stampAt twoEntries j) :=
  eviction_victim_amended.1 twoEntries
    ⟨{ urlKey := [2], object := [], objSize := 0, tStamp := 3, referenceCnt := 1 },
      by decide, by decide⟩

/-- C1: `add_to_cache` returns `false` after successfully inserting a fresh
entry, and returns `true` — with the cache left unchanged — when the
`web_object_t` allocation fails: the boolean sense is inverted relative to the
claim (and to the function's own doc comment). -/
theorem add_to_cache_inverted_demo :
    (add_to_cache AllocOutcome.ok [1] [7] 1 initCache).1 = false ∧
      (add_to_cache AllocOutcome.ok [1] [7] 1 initCache).2.start.map
          (fun o => o.urlKey) = [[1]] ∧
      (add_to_cache AllocOutcome.objFail [1] [7] 1 initCache).1 = true ∧
      (add_to_cache AllocOutcome.objFail [1] [7] 1 initCache).2 = initCache := by decide

/-! ## Clock behaviour -/

/-- The eviction loop never touches the clock. -/
theorem cache_eviction_go_LRU : ∀ (fuel need : Nat) (c : WebCache),
    (cache_eviction_go fuel need c).LRU = c.LRU := by
  intro fuel
  induction fuel with
  | zero => intro need c; rfl
  | succ fuel ih =>
    intro need c
    simp only [cache_eviction_go]
    by_cases h1 : c.size + need > MAX_CACHE_SIZE
    · rw [if_pos h1]
      by_cases h2 : c.start.isEmpty
      · rw [if_pos h2]
      · rw [if_neg h2]
        exact ih need _
    · rw [if_neg h1]

/-- The definition `insert_into_cache` never touches the clock. -/
theorem insert_into_cache_LRU (obj : WebObject) (c : WebCache) :
    (insert_into_cache obj c).LRU = c.LRU := by
  obtain ⟨st, sz, lru⟩ := c
  cases st with
  | nil => rfl
  | cons o rest =>
    simp only [insert_into_cache]
    by_cases h : sz + obj.objSize ≥ MAX_CACHE_SIZE
    · rw [if_pos h]
      exact cache_eviction_go_LRU _ _ _
    · rw [if_neg h]

/-- The definition `add_to_cache` never touches the clock. -/
theorem add_to_cache_LRU (a : AllocOutcome) (k b : List Nat) (s : Nat) (c : WebCache) :
    (add_to_cache a k b s c).2.LRU = c.LRU := by
  simp only [add_to_cache]
  by_cases hdup : (get_obj_with_key c.start k).isSome
  · rw [if_pos hdup]
  · rw [if_neg hdup]
    cases a with
    | objFail => rfl
    | destFail => rfl
    | keyFail => rfl
    | ok => exact insert_into_cache_LRU _ _

/-- Looking up `key` after a key-preserving `updateFirst` on `key` finds the
updated entry. -/
theorem get_obj_updateFirst : ∀ (l : List WebObject) (key : List Nat)
    (f : WebObject → WebObject), (∀ x, (f x).urlKey = x.urlKey) →
    get_obj_with_key (updateFirst l key f) key = (get_obj_with_key l key).map f := by
  intro l key f hf
  induction l with
  | nil => rfl
  | cons o rest ih =>
    simp only [updateFirst]
    by_cases h : keyEq key o.urlKey
    · rw [if_pos h]
      simp only [get_obj_with_key]
      rw [if_pos (by rw [hf]; exact h), if_pos h]
      rfl
    · rw [if_neg h]
      simp only [get_obj_with_key]
      rw [if_neg h, if_neg h, ih]

/-- The definition `insert_into_cache` always places the new object at the head. -/
theorem insert_into_cache_head (obj : WebObject) (c : WebCache) :
    ∃ t, (insert_into_cache obj c).start = obj :: t := by
  obtain ⟨st, sz, lru⟩ := c
  cases st with
  | nil => exact ⟨[], rfl⟩
  | cons o rest =>
    simp only [insert_into_cache]
    by_cases h : sz + obj.objSize ≥ MAX_CACHE_SIZE
    · rw [if_pos h]
      exact ⟨_, rfl⟩
    · rw [if_neg h]
      exact ⟨_, rfl⟩

/-- C8 (amended): the clock `web_cache->LRU` never decreases across any cache
operation.  `serve_cache` increments it exactly once per call — hit or miss —
and on a hit stamps the found entry with the NEW clock value; `add_to_cache`
leaves the clock untouched and stamps the freshly inserted entry with the
CURRENT (un-incremented) clock value. -/
theorem clock_behavior_amended :
    (∀ (op : CacheOp) (c : WebCache), c.LRU ≤ (runOp op c).LRU) ∧
      (∀ (key : List Nat) (c : WebCache), (serve_cache key c).2.2.LRU = c.LRU + 1) ∧
      (∀ (key : List Nat) (c : WebCache) (o : WebObject),
        get_obj_with_key c.start key = some o →
        get_obj_with_key (serve_cache key c).2.2.start key =
          some { o with tStamp := c.LRU + 1 }) ∧
      (∀ (a : AllocOutcome) (k b : List Nat) (s : Nat) (c : WebCache),
        (add_to_cache a k b s c).2.LRU = c.LRU) ∧
      (∀ (k b : List Nat) (s : Nat) (c : WebCache),
        get_obj_with_key c.start k = none →
        get_obj_with_key (add_to_cache AllocOutcome.ok k b s c).2.start k =
          some { urlKey := k, object := b.take s, objSize := s, tStamp := c.LRU,
                 referenceCnt := 1 }) := by
  refine ⟨?_, ?_, ?_, ?_, ?_⟩
  · intro op c
    cases op with
    | add a k b s =>
      show c.LRU ≤ (add_to_cache a k b s c).2.LRU
      rw [add_to_cache_LRU]
    | lookup k =>
      show c.LRU ≤ (serve_cache k c).2.2.LRU
      rw [serve_cache_state]
      exact Nat.le_succ _
  · intro key c
    rw [serve_cache_state]
  · intro key c o hg
    rw [serve_cache_state, hg]
    simp only []
    rw [get_obj_updateFirst c.start key
      (fun x => { x with tStamp := c.LRU + 1 }) (fun x => rfl), hg]
    rfl
  · intro a k b s c
    exact add_to_cache_LRU a k b s c
  · intro k b s c hnone
    simp only [add_to_cache]
    rw [if_neg (by rw [hnone]; simp)]
    simp only []
    obtain ⟨t, ht⟩ := insert_into_cache_head
      { urlKey := k, object := b.take s, objSize := s, tStamp := c.LRU,
        referenceCnt := 1 } c
    show get_obj_with_key (insert_into_cache _ c).start k = _
    rw [ht]
    simp only [get_obj_with_key]
    rw [if_pos ((keyEq_iff k k).mpr rfl)]

/-- C8 counterexample: a successful admission into the fresh cache is an index
operation that uses an entry, yet it leaves the clock at 0 (not 1) and stamps
the entry 0 (not the incremented clock value 1). -/
theorem clock_not_incremented_counterexample :
    (add_to_cache AllocOutcome.ok [1] [7] 1 initCache).2.LRU = 0 ∧
      (add_to_cache AllocOutcome.ok [1] [7] 1 initCache).2.start.map
        (fun o => o.tStamp) = [0] ∧
      ¬ ((add_to_cache AllocOutcome.ok [1] [7] 1 initCache).2.LRU =
        initCache.LRU + 1) := by decide

/-- Witness for `clock_behavior_amended` at concrete inputs: a hit on the
one-entry cache re-stamps its entry with the new clock, and a fresh admission
into the empty cache stamps its entry with the un-incremented clock. -/
theorem clock_behavior_amended_witness :
    get_obj_with_key (serve_cache [1] oneEntryCache).2.2.start [1] =
        some { oneEntry with tStamp := oneEntryCache.LRU + 1 } ∧
      get_obj_with_key (add_to_cache AllocOutcome.ok [2] [7] 1 initCache).2.start [2] =
        some { urlKey := [2], object := List.take 1 [7], objSize := 1,
               tStamp := initCache.LRU, referenceCnt := 1 } :=
  ⟨clock_behavior_amended.2.2.1 [1] oneEntryCache oneEntry (by decide),
    clock_behavior_amended.2.2.2.2 [2] [7] 1 initCache (by decide)⟩

/-- C10: a lookup never changes the resident set or the byte total, whether it
hits or misses: `size` is unchanged, the clock advances by one, the key list
(and hence the resident set) and the size sum are unchanged, every entry is
either untouched or — only the first entry matching the key — identical except
for its stamp becoming the new clock (in particular `urlKey`, `object`,
`objSize` and the net `referenceCnt` are unchanged; the reference count is
incremented and decremented back inside the call), and on a miss the entry
list is literally unchanged. -/
theorem serve_cache_frame (key : List Nat) (c : WebCache) :
    (serve_cache key c).2.2.size = c.size ∧
      (serve_cache key c).2.2.LRU = c.LRU + 1 ∧
      (serve_cache key c).2.2.start.map (fun o => o.urlKey) =
        c.start.map (fun o => o.urlKey) ∧
      sumSizes (serve_cache key c).2.2.start = sumSizes c.start ∧
      (∀ i : Nat, (serve_cache key c).2.2.start.get? i = c.start.get? i ∨
        ∃ o, c.start.get? i = some o ∧
          (serve_cache key c).2.2.start.get? i = some { o with tStamp := c.LRU + 1 }) ∧
      (get_obj_with_key c.start key = none → (serve_cache key c).2.2.start = c.start) := by
  rw [serve_cache_state]
  cases hg : get_obj_with_key c.start key with
  | none => exact ⟨rfl, rfl, rfl, rfl, fun i => Or.inl rfl, fun _ => rfl⟩
  | some o =>
    refine ⟨rfl, rfl, ?_, ?_, ?_, ?_⟩
    · exact map_urlKey_updateFirst c.start key
        (fun x => { x with tStamp := c.LRU + 1 }) (fun x => rfl)
    · exact sumSizes_updateFirst c.start key
        (fun x => { x with tStamp := c.LRU + 1 }) (fun x => rfl)
    · intro i
      rcases updateFirst_get? c.start key (fun x => { x with tStamp := c.LRU + 1 }) i with
        h | ⟨o', ho', _, ho2⟩
      · exact Or.inl h
      · exact Or.inr ⟨o', ho', ho2⟩
    · intro hnone
      cases hnone

/-- Witness for `serve_cache_frame`: a miss on the one-entry cache leaves the
entry list unchanged. -/
theorem serve_cache_frame_witness :
    (serve_cache [2] oneEntryCache).2.2.start = oneEntryCache.start :=
  (serve_cache_frame [2] oneEntryCache).2.2.2.2.2 (by decide)

/-! ## Pipeline theorems -/

/-- On a well-formed request line whose method is not GET, `read_requestline`
writes exactly one `501 Not Implemented` and reports failure. -/
theorem read_requestline_non_get (r : RequestLineInput) (h1 : r.readOk = true)
    (h2 : r.parsed = ParseState.REQUEST) (h3 : r.scanOk = true)
    (h4 : r.version = '0' ∨ r.version = '1') (h5 : r.method ≠ "GET") :
    read_requestline r = (none, [ErrResp.e501]) := by
  rcases h4 with h4 | h4 <;>
    simp [read_requestline, h1, h2, h3, h4, h5]

/-- The definition `read_request` forwards the non-GET rejection of `read_requestline`. -/
theorem read_request_non_get (inp : RequestInput) (h1 : inp.line.readOk = true)
    (h2 : inp.line.parsed = ParseState.REQUEST) (h3 : inp.line.scanOk = true)
    (h4 : inp.line.version = '0' ∨ inp.line.version = '1')
    (h5 : inp.line.method ≠ "GET") :
    read_request inp = (none, [ErrResp.e501]) := by
  simp only [read_request, read_requestline_non_get inp.line h1 h2 h3 h4 h5]

/-- C7 (amended): for every inbound request whose request line parses as a
well-formed request but whose method is not GET, the proxy answers `501 Not
Implemented` FOLLOWED BY an additional `400 Bad Request` (the generic
request-reading failure response of `threadRoutine`), and no origin connection
is opened. -/
theorem non_get_responses_amended (inp : PipelineInput) (c : WebCache)
    (h1 : inp.req.line.readOk = true) (h2 : inp.req.line.parsed = ParseState.REQUEST)
    (h3 : inp.req.line.scanOk = true)
    (h4 : inp.req.line.version = '0' ∨ inp.req.line.version = '1')
    (h5 : inp.req.line.method ≠ "GET") :
    (threadRoutine inp c).errs = [ErrResp.e501, ErrResp.e400] ∧
      (threadRoutine inp c).originAttempted = false := by
  have h := read_request_non_get inp.req h1 h2 h3 h4 h5
  simp only [threadRoutine, h]
  exact ⟨by trivial, by trivial⟩

/-- C7 counterexample: for the concrete `POST /x HTTP/1.0` request the proxy's
error output is `[501, 400]`, not the single `501` response the claim
describes. -/
theorem non_get_double_response_counterexample :
    ¬ ((threadRoutine postInput initCache).errs = [ErrResp.e501]) ∧
      (threadRoutine postInput initCache).errs = [ErrResp.e501, ErrResp.e400] := by decide

/-- Witness for `non_get_responses_amended` at the concrete POST request. -/
theorem non_get_responses_amended_witness :
    (threadRoutine postInput initCache).errs = [ErrResp.e501, ErrResp.e400] ∧
      (threadRoutine postInput initCache).originAttempted = false :=
  non_get_responses_amended postInput initCache rfl rfl rfl (Or.inl rfl) (by decide)

/-- C9: whenever request reading rejects a request — whatever error responses
it already wrote, including the `501` of the non-GET path — `threadRoutine`
additionally writes a `400 Bad Request` on the same connection, opens no
origin connection, and leaves the cache untouched. -/
theorem rejected_request_gets_400 (inp : PipelineInput) (c : WebCache)
    (es : List ErrResp) (h : read_request inp.req = (none, es)) :
    (threadRoutine inp c).errs = es ++ [ErrResp.e400] ∧
      (threadRoutine inp c).originAttempted = false ∧
      (threadRoutine inp c).cacheAfter = c := by
  simp only [threadRoutine, h]
  exact ⟨by trivial, by trivial, by trivial⟩

/-- Witness for `rejected_request_gets_400` at the concrete POST request. -/
theorem rejected_request_gets_400_witness :
    (threadRoutine postInput initCache).errs = [ErrResp.e501] ++ [ErrResp.e400] ∧
      (threadRoutine postInput initCache).originAttempted = false ∧
      (threadRoutine postInput initCache).cacheAfter = initCache :=
  rejected_request_gets_400 postInput initCache [ErrResp.e501] (by decide)

/-- C4: with two successive origin chunks `[65, 66]` then `[67]` (total 3
bytes, cacheable), the pipeline passes `add_to_cache` the contents of the
single fixed `cacheBuf` — the LAST chunk written over the remains of the
first, `[67, 66, 0]` — and not the concatenated body `[65, 66, 67]`. -/
theorem relay_last_chunk_demo :
    ((threadRoutine (getInput [[65, 66], [67]] (List.replicate MAX_OBJECT_SIZE 0))
          initCache).addCalled.map (fun t => t.2.1.take t.2.2)) = some [67, 66, 0] ∧
      ([[65, 66], [67]] : List (List Nat)).flatten = [65, 66, 67] ∧
      ¬ ([67, 66, 0] = [65, 66, 67]) := by decide

/-- C5: when the origin yields zero body bytes (EOF at once), the pipeline
still calls `add_to_cache` — with `size = 0`, violating the claim (and the
documented precondition `size > 0` of `add_to_cache`). -/
theorem zero_byte_admission_demo :
    ((threadRoutine (getInput [] (List.replicate MAX_OBJECT_SIZE 0))
          initCache).addCalled).isSome = true ∧
      ((threadRoutine (getInput [] (List.replicate MAX_OBJECT_SIZE 0))
          initCache).addCalled.map (fun t => t.2.2)) = some 0 ∧
      ¬ (1 ≤ 0) := by decide

/-- C6: on a successful forward of a concrete one-chunk GET interaction, the
proxy writes `MAXBUF = 8192` bytes to the origin, while the rewritten request
in the buffer is 161 bytes long — the write length is the fixed buffer size,
not the request's byte length. -/
theorem upstream_fixed_write_demo :
    (threadRoutine (getInput [[72]] (List.replicate MAX_OBJECT_SIZE 0))
        initCache).upstreamWriteLen = some MAXBUF ∧
      ((threadRoutine (getInput [[72]] (List.replicate MAX_OBJECT_SIZE 0))
          initCache).upstreamReq.map String.length) = some 161 ∧
      ¬ (161 = MAXBUF) := by decide
